import Mathlib

/-!
Verification development for the XML-RPC codec of go-rtorrent
(src/xmlrpc/client.go).  The Go code is shallowly embedded: the dynamically
typed Go values that cross the codec are an inductive type, the encoder
produces strings, the decoder is modelled in two layers exactly as in the
source — a tokenizer standing for encoding/xml.Decoder.Token (start element,
end element, character data, with entity decoding and the XML CR/CRLF to LF
normalization the Go decoder performs), and above it the hand-written
recursive-descent parser (state.token / getStart / getText / checkLast /
parseValue / Unmarshal) operating on the token list, with the one-token
pushback represented by returning the stream with the unread token still in
front.  Machine integers are Nat/Int; Go byte slices are lists of Nat below
256; time.Time is abstracted to its broken-down fields plus the zone offset
in seconds (zone names and the monotonic clock do not influence this codec).
-/

namespace GoXmlRpc

/-- Decimal digit character for a value below ten. -/
def digitToChar (n : Nat) : Char := Char.ofNat (48 + n)

/-- Digit characters of a natural number, most significant first, with a
structural fuel so the definition reduces definitionally; the wrapper below
always supplies enough fuel. -/
def natDigitsAux : Nat → Nat → List Char
  | 0, _ => []
  | f + 1, n =>
    if n < 10 then [digitToChar n]
    else natDigitsAux f (n / 10) ++ [digitToChar (n % 10)]

/-- Digit characters of a natural number, most significant first
(models Go strconv decimal formatting). -/
def natDigits (n : Nat) : List Char := natDigitsAux (n + 1) n

/-- Decimal rendering of a natural number. -/
def natToDec (n : Nat) : String := ⟨natDigits n⟩

/-- Decimal rendering of an integer, models fmt %d / %v on Go integer kinds. -/
def intToDec (i : Int) : String :=
  if i < 0 then "-" ++ natToDec i.natAbs else natToDec i.natAbs

/-- Zero-pad a natural to the given width (Go time appendInt). -/
def padWidth (w : Nat) (n : Nat) : String :=
  ⟨List.replicate (w - (natToDec n).length) '0'⟩ ++ natToDec n

/-- Go time appendInt with a width: sign first, absolute value zero-padded. -/
def appendIntW (w : Nat) (i : Int) : String :=
  if i < 0 then "-" ++ padWidth w i.natAbs else padWidth w i.natAbs

/-- Numeric value of a digit character. -/
def dval (c : Char) : Nat := c.toNat - 48

/-- The escape of one character under the xmlSpecial table of the source;
characters outside the table are copied.  The source loops over bytes, but
the five escaped characters are single-byte ASCII and no UTF-8 continuation
byte coincides with them, so the character-level map is equivalent. -/
def escChar (c : Char) : String :=
  if c = '<' then "&lt;"
  else if c = '>' then "&gt;"
  else if c = '"' then "&quot;"
  else if c = Char.ofNat 39 then "&apos;"
  else if c = '&' then "&amp;"
  else String.singleton c

/-- Model of xmlEscape in the source. -/
def xmlEscape (s : String) : String := String.join (s.toList.map escChar)

/-- Model of strconv.ParseBool: the exact literal set accepted by Go. -/
def goParseBool (s : String) : Option Bool :=
  if s = "1" ∨ s = "t" ∨ s = "T" ∨ s = "true" ∨ s = "TRUE" ∨ s = "True" then some true
  else if s = "0" ∨ s = "f" ∨ s = "F" ∨ s = "false" ∨ s = "FALSE" ∨ s = "False" then some false
  else none

/-- Value of a digit run under the decimal accumulation of strconv. -/
def digitsVal (ds : List Char) : Nat := ds.foldl (fun a c => 10 * a + dval c) 0

/-- Model of strconv.ParseInt(s, 10, bitSize) acceptance and value: an
optional sign, a nonempty run of decimal digits, and the signed value within
the two-complement range of the bit size.  Go additionally returns a clamped
value together with ErrRange on overflow; that value travels only next to a
non-nil error which every caller in the codec treats as fatal, so the model
returns none in all error cases. -/
def goParseIntC (bitSize : Nat) (cs : List Char) : Option Int :=
  match cs with
  | [] => none
  | c :: rest =>
    let neg := c = '-'
    let ds := if c = '+' ∨ c = '-' then rest else cs
    if ds = [] ∨ ¬ ds.all Char.isDigit then none
    else
      let v : Int := if neg then -(digitsVal ds : Int) else (digitsVal ds : Int)
      if -(2 ^ (bitSize - 1) : Int) ≤ v ∧ v ≤ (2 ^ (bitSize - 1) : Int) - 1 then some v
      else none

/-- ParseInt on the character list of the body. -/
def goParseIntB (bitSize : Nat) (s : String) : Option Int := goParseIntC bitSize s.toList

/-- Lower-casing of an ASCII letter, for the ParseFloat special forms. -/
def lowerChar (c : Char) : Char :=
  if 65 ≤ c.toNat ∧ c.toNat ≤ 90 then Char.ofNat (c.toNat + 32) else c

/-- Acceptance of strconv.ParseFloat(s, 64): special forms (NaN, signed
Inf/Infinity, case-insensitive) and decimal mantissa with optional fraction
and exponent.  The hexadecimal and underscore forms Go also accepts are not
modelled; no claim in this development depends on float syntax, and the
decoded double itself is abstracted to its accepted text (see ValueR). -/
def goFloatSyntaxOk (s : String) : Bool :=
  let cs := s.toList
  let low := String.mk (cs.map lowerChar)
  if low = "nan" then true
  else
    let q : List Char :=
      match cs with
      | '+' :: rest => rest
      | '-' :: rest => rest
      | _ => cs
    let lowq := String.mk (q.map lowerChar)
    if lowq = "inf" ∨ lowq = "infinity" then true
    else
      let ds1 := q.takeWhile Char.isDigit
      let r1 := q.dropWhile Char.isDigit
      let p2 : List Char × List Char :=
        match r1 with
        | '.' :: rest => (rest.takeWhile Char.isDigit, rest.dropWhile Char.isDigit)
        | _ => ([], r1)
      if ds1 = [] ∧ p2.1 = [] then false
      else
        match p2.2 with
        | [] => true
        | e :: rest =>
          if e = 'e' ∨ e = 'E' then
            let q2 : List Char :=
              match rest with
              | '+' :: r => r
              | '-' :: r => r
              | _ => rest
            q2 ≠ [] ∧ q2.all Char.isDigit
          else false

/-- Standard base64 alphabet character for a 6-bit value. -/
def b64Char (n : Nat) : Char :=
  if n < 26 then Char.ofNat (65 + n)
  else if n < 52 then Char.ofNat (97 + (n - 26))
  else if n < 62 then Char.ofNat (48 + (n - 52))
  else if n = 62 then '+'
  else '/'

/-- Standard base64 encoding with padding (encoding/base64 StdEncoding). -/
def base64Enc : List Nat → String
  | [] => ""
  | [a] =>
    String.mk [b64Char (a / 4), b64Char (a % 4 * 16), '=', '=']
  | [a, b] =>
    String.mk [b64Char (a / 4), b64Char (a % 4 * 16 + b / 16), b64Char (b % 16 * 4), '=']
  | a :: b :: c :: rest =>
    String.mk [b64Char (a / 4), b64Char (a % 4 * 16 + b / 16),
      b64Char (b % 16 * 4 + c / 64), b64Char (c % 64)] ++ base64Enc rest

/-- Value of a base64 alphabet character. -/
def b64CVal (c : Char) : Option Nat :=
  if 65 ≤ c.toNat ∧ c.toNat ≤ 90 then some (c.toNat - 65)
  else if 97 ≤ c.toNat ∧ c.toNat ≤ 122 then some (c.toNat - 97 + 26)
  else if 48 ≤ c.toNat ∧ c.toNat ≤ 57 then some (c.toNat - 48 + 52)
  else if c = '+' then some 62
  else if c = '/' then some 63
  else none

/-- Decoding of base64 quads; padding may close only the final quad. -/
def b64DecGroups : List Char → Option (List Nat)
  | [] => some []
  | [a, b, '=', '='] => do
    let va ← b64CVal a
    let vb ← b64CVal b
    some [va * 4 + vb / 16]
  | [a, b, c, '='] => do
    let va ← b64CVal a
    let vb ← b64CVal b
    let vc ← b64CVal c
    some [va * 4 + vb / 16, vb % 16 * 16 + vc / 4]
  | a :: b :: c :: d :: rest => do
    let va ← b64CVal a
    let vb ← b64CVal b
    let vc ← b64CVal c
    let vd ← b64CVal d
    let tl ← b64DecGroups rest
    some ([va * 4 + vb / 16, vb % 16 * 16 + vc / 4, vc % 4 * 64 + vd] ++ tl)
  | _ => none

/-- Model of StdEncoding.DecodeString: carriage returns and newlines are
ignored, the rest must be padded quads.  StdEncoding does not reject nonzero
discarded trailing bits, and neither does this model. -/
def base64Dec (s : String) : Option (List Nat) :=
  b64DecGroups (s.toList.filter (fun c => c ≠ '\r' ∧ c ≠ '\n'))

/-- A Go time.Time as this codec observes it: broken-down wall-clock fields
plus the zone offset in seconds east of UTC.  The location is abstracted to
its offset (the four layouts carry no zone name), and fractional seconds are
absent because none of the accepted layouts parses them. -/
structure GoTime where
  year : Int
  month : Nat
  day : Nat
  hour : Nat
  minute : Nat
  second : Nat
  offsetSec : Int
deriving DecidableEq, Repr

/-- FullXMLRpcTime layout constant of the source. -/
def FullXMLRpcTime : String := "2006-01-02T15:04:05-07:00"

/-- LocalXMLRpcTime layout constant of the source. -/
def LocalXMLRpcTime : String := "2006-01-02T15:04:05"

/-- DenseXMLRpcTime layout constant of the source. -/
def DenseXMLRpcTime : String := "20060102T15:04:05"

/-- DummyXMLRpcTime layout constant of the source. -/
def DummyXMLRpcTime : String := "20060102T15:04:05-0700"

/-- Fixed two-digit numeric field (Go time getnum with fixed width). -/
def num2 : List Char → Option (Nat × List Char)
  | a :: b :: rest =>
    if a.isDigit ∧ b.isDigit then some (10 * dval a + dval b, rest) else none
  | _ => none

/-- One- or two-digit numeric field (Go time getnum, non-fixed; the hour
field "15" is parsed this way). -/
def num1or2 : List Char → Option (Nat × List Char)
  | [] => none
  | [a] => if a.isDigit then some (dval a, []) else none
  | a :: b :: rest =>
    if a.isDigit then
      if b.isDigit then some (10 * dval a + dval b, rest) else some (dval a, b :: rest)
    else none

/-- Four-digit year field (Go time stdLongYear). -/
def num4 : List Char → Option (Nat × List Char)
  | a :: b :: c :: d :: rest =>
    if a.isDigit ∧ b.isDigit ∧ c.isDigit ∧ d.isDigit then
      some (1000 * dval a + 100 * dval b + 10 * dval c + dval d, rest)
    else none
  | _ => none

/-- Literal layout character. -/
def litc (ch : Char) : List Char → Option (List Char)
  | c :: rest => if c = ch then some rest else none
  | [] => none

/-- Zone of the form -07:00 (Go stdNumColonTZ): sign, two digits, colon,
two digits.  The Z shortcut of time.Parse covers only the ISO layouts
written with Z (Z07:00 and friends), not this one, so a bare Z is rejected;
Go validates no range on the digits. -/
def zoneColon : List Char → Option (Int × List Char)
  | [] => none
  | c :: rest =>
    if c = '+' ∨ c = '-' then do
      let (hh, r1) ← num2 rest
      let r2 ← litc ':' r1
      let (mm, r3) ← num2 r2
      let off : Int := ((hh * 60 + mm) * 60 : Nat)
      some (if c = '-' then -off else off, r3)
    else none

/-- Zone of the form -0700 (Go stdNumTZ): sign then four digits; Z is not
accepted for this layout. -/
def zoneDense : List Char → Option (Int × List Char)
  | [] => none
  | c :: rest =>
    if c = '+' ∨ c = '-' then do
      let (hh, r1) ← num2 rest
      let (mm, r2) ← num2 r1
      let off : Int := ((hh * 60 + mm) * 60 : Nat)
      some (if c = '-' then -off else off, r2)
    else none

/-- Go leap-year rule. -/
def isLeap (y : Int) : Bool := y % 4 = 0 ∧ (y % 100 ≠ 0 ∨ y % 400 = 0)

/-- Days in a month (Go time daysIn). -/
def daysIn (m : Nat) (y : Int) : Nat :=
  if m = 2 then (if isLeap y then 29 else 28)
  else if m = 1 ∨ m = 3 ∨ m = 5 ∨ m = 7 ∨ m = 8 ∨ m = 10 ∨ m = 12 then 31
  else 30

/-- The range checks Go time.Parse applies after reading the fields. -/
def validParts (y : Int) (mo d h mi s : Nat) : Bool :=
  1 ≤ mo ∧ mo ≤ 12 ∧ 1 ≤ d ∧ d ≤ daysIn mo y ∧ h < 24 ∧ mi < 60 ∧ s < 60

/-- time.Parse with the FullXMLRpcTime layout. -/
def timeParseFull (s : String) : Option GoTime := do
  let (y, r1) ← num4 s.toList
  let r2 ← litc '-' r1
  let (mo, r3) ← num2 r2
  let r4 ← litc '-' r3
  let (d, r5) ← num2 r4
  let r6 ← litc 'T' r5
  let (h, r7) ← num1or2 r6
  let r8 ← litc ':' r7
  let (mi, r9) ← num2 r8
  let r10 ← litc ':' r9
  let (sec, r11) ← num2 r10
  let (off, r12) ← zoneColon r11
  if r12 = [] ∧ validParts y mo d h mi sec then some ⟨y, mo, d, h, mi, sec, off⟩ else none

/-- time.Parse with the LocalXMLRpcTime layout (no zone: UTC, offset 0). -/
def timeParseLocal (s : String) : Option GoTime := do
  let (y, r1) ← num4 s.toList
  let r2 ← litc '-' r1
  let (mo, r3) ← num2 r2
  let r4 ← litc '-' r3
  let (d, r5) ← num2 r4
  let r6 ← litc 'T' r5
  let (h, r7) ← num1or2 r6
  let r8 ← litc ':' r7
  let (mi, r9) ← num2 r8
  let r10 ← litc ':' r9
  let (sec, r11) ← num2 r10
  if r11 = [] ∧ validParts y mo d h mi sec then some ⟨y, mo, d, h, mi, sec, 0⟩ else none

/-- time.Parse with the DenseXMLRpcTime layout. -/
def timeParseDense (s : String) : Option GoTime := do
  let (y, r1) ← num4 s.toList
  let (mo, r2) ← num2 r1
  let (d, r3) ← num2 r2
  let r4 ← litc 'T' r3
  let (h, r5) ← num1or2 r4
  let r6 ← litc ':' r5
  let (mi, r7) ← num2 r6
  let r8 ← litc ':' r7
  let (sec, r9) ← num2 r8
  if r9 = [] ∧ validParts y mo d h mi sec then some ⟨y, mo, d, h, mi, sec, 0⟩ else none

/-- time.Parse with the DummyXMLRpcTime layout. -/
def timeParseDummy (s : String) : Option GoTime := do
  let (y, r1) ← num4 s.toList
  let (mo, r2) ← num2 r1
  let (d, r3) ← num2 r2
  let r4 ← litc 'T' r3
  let (h, r5) ← num1or2 r4
  let r6 ← litc ':' r5
  let (mi, r7) ← num2 r6
  let r8 ← litc ':' r7
  let (sec, r9) ← num2 r8
  let (off, r10) ← zoneDense r9
  if r10 = [] ∧ validParts y mo d h mi sec then some ⟨y, mo, d, h, mi, sec, off⟩ else none

/-- The format list of the source's dateTime.iso8601 case, in source order. -/
inductive XTimeFormat
  | full
  | locl
  | dense
  | dummy
deriving DecidableEq, Repr

/-- Dispatch of time.Parse over the four layout constants. -/
def timeParseWith : XTimeFormat → String → Option GoTime
  | .full, s => timeParseFull s
  | .locl, s => timeParseLocal s
  | .dense, s => timeParseDense s
  | .dummy, s => timeParseDummy s

/-- The slice iterated by the source: FullXMLRpcTime, LocalXMLRpcTime,
DenseXMLRpcTime, DummyXMLRpcTime, in that order. -/
def dateFormats : List XTimeFormat := [.full, .locl, .dense, .dummy]

/-- The source's loop: try each format in order, first success wins. -/
def tryFormats : List XTimeFormat → String → Option GoTime
  | [], _ => none
  | f :: fs, s =>
    match timeParseWith f s with
    | some t => some t
    | none => tryFormats fs s

/-- Zone rendering of time.Format for -07:00: minutes truncated from the
offset, seconds of the offset silently dropped. -/
def formatZoneColon (offsetSec : Int) : String :=
  let zone := offsetSec.natAbs / 60
  (if offsetSec < 0 then "-" else "+") ++ padWidth 2 (zone / 60) ++ ":" ++ padWidth 2 (zone % 60)

/-- time.Format with the FullXMLRpcTime layout (the only layout the encoder
emits). -/
def timeFormatFull (t : GoTime) : String :=
  appendIntW 4 t.year ++ "-" ++ padWidth 2 t.month ++ "-" ++ padWidth 2 t.day ++ "T" ++
    padWidth 2 t.hour ++ ":" ++ padWidth 2 t.minute ++ ":" ++ padWidth 2 t.second ++
    formatZoneColon t.offsetSec

/-- Tokens of the generic XML reader (encoding/xml Decoder.Token) as the
codec consumes them: start element, end element, character data.  Comments,
directives and processing instructions never occur in the documents this
codec emits and are out of scope of the model (the tokenizer rejects them). -/
inductive Tok
  | start (n : String)
  | stop (n : String)
  | text (s : String)
deriving DecidableEq, Repr

/-- Mode of the tokenizer state machine. -/
inductive TkMode
  | text (acc : List Char)
  | ent (eacc : List Char) (acc : List Char)
  | tagO
  | tagN (closing : Bool) (acc : List Char)
deriving DecidableEq, Repr

/-- Tokenizer state: emitted tokens, mode, whether the previous input
character was a carriage return (for the XML CR/CRLF to LF normalization the
Go decoder performs on character data), and a sticky error. -/
structure TkState where
  toks : List Tok
  mode : TkMode
  lastCR : Bool
  err : Option String
deriving DecidableEq, Repr

/-- Characters accepted in element names; covers every name this codec emits
(including the dot of dateTime.iso8601). -/
def validNameChar (c : Char) : Bool :=
  c.isAlphanum ∨ c = '.' ∨ c = '_' ∨ c = '-' ∨ c = ':'

/-- Hexadecimal digit value. -/
def hexVal (c : Char) : Option Nat :=
  if 48 ≤ c.toNat ∧ c.toNat ≤ 57 then some (c.toNat - 48)
  else if 97 ≤ c.toNat ∧ c.toNat ≤ 102 then some (c.toNat - 97 + 10)
  else if 65 ≤ c.toNat ∧ c.toNat ≤ 70 then some (c.toNat - 65 + 10)
  else none

/-- isInCharacterRange of encoding/xml: the XML Character Range; the Go
decoder rejects character data and character references outside it with an
illegal-character-code error. -/
def isInCharacterRange (n : Nat) : Bool :=
  n = 9 ∨ n = 10 ∨ n = 13 ∨ (32 ≤ n ∧ n ≤ 55295) ∨ (57344 ≤ n ∧ n ≤ 65533) ∨
    (65536 ≤ n ∧ n ≤ 1114111)

/-- Replacement for the text between an ampersand and a semicolon: the five
predefined XML entities and numeric character references. -/
def decodeEntity (cs : List Char) : Option (List Char) :=
  if cs = ['l', 't'] then some ['<']
  else if cs = ['g', 't'] then some ['>']
  else if cs = ['a', 'm', 'p'] then some ['&']
  else if cs = ['a', 'p', 'o', 's'] then some [Char.ofNat 39]
  else if cs = ['q', 'u', 'o', 't'] then some ['"']
  else
    match cs with
    | '#' :: 'x' :: ds =>
      if ds ≠ [] ∧ (ds.all fun c => (hexVal c).isSome) then
        let n := ds.foldl (fun a c => 16 * a + ((hexVal c).getD 0)) 0
        if isInCharacterRange n then some [Char.ofNat n] else none
      else none
    | '#' :: ds =>
      if ds ≠ [] ∧ ds.all Char.isDigit then
        let n := ds.foldl (fun a c => 10 * a + dval c) 0
        if isInCharacterRange n then some [Char.ofNat n] else none
      else none
    | _ => none

/-- Emit the pending character data, if nonempty, as one text token. -/
def flushText (toks : List Tok) (acc : List Char) : List Tok :=
  if acc = [] then toks else toks ++ [.text ⟨acc⟩]

/-- One step of the tokenizer on one input character. -/
def tkStep (st : TkState) (c : Char) : TkState :=
  if st.err.isSome then st
  else
    let cr := c = '\r'
    match st.mode with
    | .text acc =>
      if c = '<' then { st with toks := flushText st.toks acc, mode := .tagO, lastCR := cr }
      else if c = '&' then { st with mode := .ent [] acc, lastCR := cr }
      else if isInCharacterRange c.toNat = false then
        { st with err := some "illegal character code" }
      else if c = '\r' then { st with mode := .text (acc ++ ['\n']), lastCR := true }
      else if c = '\n' ∧ st.lastCR then { st with mode := .text acc, lastCR := false }
      else { st with mode := .text (acc ++ [c]), lastCR := false }
    | .ent eacc acc =>
      if c = ';' then
        match decodeEntity eacc with
        | some rep => { st with mode := .text (acc ++ rep), lastCR := cr }
        | none => { st with err := some "invalid entity" }
      else if c.isAlphanum ∨ c = '#' then { st with mode := .ent (eacc ++ [c]) acc, lastCR := cr }
      else { st with err := some "invalid entity" }
    | .tagO =>
      if c = '/' then { st with mode := .tagN true [], lastCR := cr }
      else if validNameChar c then { st with mode := .tagN false [c], lastCR := cr }
      else { st with err := some "unsupported markup" }
    | .tagN closing acc =>
      if c = '>' then
        if acc = [] then { st with err := some "empty tag name" }
        else
          { st with toks := st.toks ++ [if closing then Tok.stop ⟨acc⟩ else Tok.start ⟨acc⟩],
                    mode := .text [], lastCR := cr }
      else if validNameChar c then { st with mode := .tagN closing (acc ++ [c]), lastCR := cr }
      else { st with err := some "bad tag name" }

/-- Initial tokenizer state. -/
def tkInit : TkState := ⟨[], .text [], false, none⟩

/-- End of input: flush pending text; a tag or entity left open is an error. -/
def tkFinish (st : TkState) : Except String (List Tok) :=
  match st.err with
  | some e => .error e
  | none =>
    match st.mode with
    | .text acc => .ok (flushText st.toks acc)
    | _ => .error "unexpected EOF"

/-- The token stream of a document, as the Go XML decoder would produce it
for the fragment of XML this codec emits. -/
def tokenize (s : String) : Except String (List Tok) :=
  tkFinish (s.toList.foldl tkStep tkInit)

/-- The dynamically typed values parseValue produces: Go nil (an empty
value element), bool, int (the int family and i8 both land in a Go int),
float64 (abstracted to its accepted text — no claim here depends on float
semantics), string, time.Time, a byte slice from base64, []interface with
document order, and map[string]interface represented as its entry list with
unique keys in insertion order. -/
inductive ValueR
  | null
  | bool (b : Bool)
  | int (i : Int)
  | double (raw : String)
  | str (s : String)
  | time (t : GoTime)
  | bytes (bs : List Nat)
  | array (elems : List ValueR)
  | strct (members : List (String × ValueR))

/-- Error kinds of the decoder.  The sentinel constructors stand for the
errors.New sentinels of the source; Errorf2 wrapping only attaches detail
and ErrEq compares the embedded sentinel, so a wrapped error is modelled by
its sentinel constructor directly.  fuelOut is the recursion budget of the
embedding; with the budgets supplied by the wrappers it is never reached on
any input appearing in this development. -/
inductive PErr
  | eof
  | notStartElement
  | nameMismatch (found : String)
  | notEndElement
  | conv
  | unknownTag (n : String)
  | faultShape (why : String)
  | fuelOut
deriving DecidableEq, Repr

/-- Result of a parser operation: a value plus the stream after it, or an
error plus the stream as the failing operation leaves it (a pushed-back
token is still in front). -/
abbrev PRes (α : Type) := Except (PErr × List Tok) (α × List Tok)

/-- The skipping loop of state.token: drop every token that is not a start
or end element (in particular all character data) and return the first
structural token with the stream after it. -/
def nextStruct : List Tok → Option (Tok × List Tok)
  | [] => none
  | .text _ :: rest => nextStruct rest
  | .start n :: rest => some (.start n, rest)
  | .stop n :: rest => some (.stop n, rest)

/-- state.getStart: fetch a start element.  A non-start token is pushed back
(errNotStartElement); a wrong name is consumed (errNameMismatch, carrying
the found name as the source carries the found element). -/
def getStart (name : String) (ts : List Tok) : PRes String :=
  match nextStruct ts with
  | none => .error (.eof, [])
  | some (.start n, rest) =>
    if name ≠ "" ∧ n ≠ name then .error (.nameMismatch n, rest) else .ok (n, rest)
  | some (t, rest) => .error (.notStartElement, t :: rest)

/-- Decoder.DecodeElement into a chardata field, after the start tag has
been consumed: character data of the element is accumulated, nested
elements are skipped wholesale (their text is not accumulated), and the
matching end element closes the body.  Well-nestedness of the token stream
is the XML decoder's own invariant and is assumed here. -/
def decodeBodyAux (depth : Nat) (acc : String) : List Tok → Option (String × List Tok)
  | [] => none
  | .text s :: rest => decodeBodyAux depth (if depth = 0 then acc ++ s else acc) rest
  | .start _ :: rest => decodeBodyAux (depth + 1) acc rest
  | .stop _ :: rest => if depth = 0 then some (acc, rest) else decodeBodyAux (depth - 1) acc rest

/-- Body of the element whose start tag was just consumed. -/
def decodeBody (ts : List Tok) : Option (String × List Tok) := decodeBodyAux 0 "" ts

/-- state.getText: fetch a start element (the required name is not checked
in the source for the text form) and decode its character data body. -/
def getText (ts : List Tok) : PRes String :=
  match nextStruct ts with
  | none => .error (.eof, [])
  | some (.start _, rest) =>
    match decodeBody rest with
    | none => .error (.eof, [])
    | some (body, rest2) => .ok (body, rest2)
  | some (t, rest) => .error (.notStartElement, t :: rest)

/-- state.checkLast: fetch an end element of the given name.  A non-end
token is pushed back (errNotEndElement); a wrong name is consumed
(errNameMismatch). -/
def checkLast (name : String) (ts : List Tok) : PRes Unit :=
  match nextStruct ts with
  | none => .error (.eof, [])
  | some (.stop n, rest) =>
    if name ≠ "" ∧ n ≠ name then .error (.nameMismatch n, rest) else .ok ((), rest)
  | some (t, rest) => .error (.notEndElement, t :: rest)

/-- The simple element names of parseValue, in source order. -/
def simpleTags : List String :=
  ["boolean", "string", "int", "i1", "i2", "i4", "i8", "double", "dateTime.iso8601", "base64"]

/-- The per-type conversion of a simple element body (the inner switch of
parseValue). -/
def convertLeaf (tag body : String) : Except PErr ValueR :=
  if tag = "boolean" then
    match goParseBool body with
    | some b => .ok (.bool b)
    | none => .error .conv
  else if tag = "string" then .ok (.str body)
  else if tag = "int" ∨ tag = "i1" ∨ tag = "i2" ∨ tag = "i4" then
    match goParseIntB 32 body with
    | some i => .ok (.int i)
    | none => .error .conv
  else if tag = "i8" then
    match goParseIntB 64 body with
    | some i => .ok (.int i)
    | none => .error .conv
  else if tag = "double" then
    if goFloatSyntaxOk body then .ok (.double body) else .error .conv
  else if tag = "dateTime.iso8601" then
    match tryFormats dateFormats body with
    | some t => .ok (.time t)
    | none => .error .conv
  else if tag = "base64" then
    match base64Dec body with
    | some bs => .ok (.bytes bs)
    | none => .error .conv
  else .error (.unknownTag tag)

/-- Go map assignment on the entry-list representation: replace the value of
an existing key in place, or append a new key. -/
def mapInsert : List (String × ValueR) → String → ValueR → List (String × ValueR)
  | [], k, v => [(k, v)]
  | (k1, v1) :: rest, k, v =>
    if k1 = k then (k, v) :: rest else (k1, v1) :: mapInsert rest k v

/-- Go map lookup on the entry-list representation. -/
def mapLookup : List (String × ValueR) → String → Option ValueR
  | [], _ => none
  | (k1, v1) :: rest, k => if k1 = k then some v1 else mapLookup rest k

mutual

/-- state.parseValue.  The fuel argument bounds the recursion depth of the
embedding; every recursive call of the source consumes at least one token
first, so a budget of one more than the stream length is always enough. -/
def parseValue (fuel : Nat) (ts : List Tok) : PRes ValueR :=
  match fuel with
  | 0 => .error (.fuelOut, ts)
  | f + 1 =>
    match getStart "" ts with
    | .error (.notStartElement, ts1) => .ok (.null, ts1)
    | .error r => .error r
    | .ok (n, ts1) =>
      if n = "value" then
        match parseValue f ts1 with
        | .error r => .error r
        | .ok (v, ts2) =>
          match checkLast "value" ts2 with
          | .error r => .error r
          | .ok (_, ts3) => .ok (v, ts3)
      else if n ∈ simpleTags then
        match decodeBody ts1 with
        | none => .error (.eof, [])
        | some (body, ts2) =>
          match convertLeaf n body with
          | .ok v => .ok (v, ts2)
          | .error e => .error (e, ts2)
      else if n = "struct" then parseMembers f [] ts1
      else if n = "array" then
        match getStart "data" ts1 with
        | .error r => .error r
        | .ok (_, ts2) => parseItems f [] ts2
      else .error (.unknownTag n, ts1)

/-- The member loop of the struct case of parseValue. -/
def parseMembers (fuel : Nat) (acc : List (String × ValueR)) (ts : List Tok) : PRes ValueR :=
  match fuel with
  | 0 => .error (.fuelOut, ts)
  | f + 1 =>
    match getStart "member" ts with
    | .error (.notStartElement, ts1) =>
      match checkLast "struct" ts1 with
      | .error r => .error r
      | .ok (_, ts2) => .ok (.strct acc, ts2)
    | .error r => .error r
    | .ok (_, ts1) =>
      match getText ts1 with
      | .error r => .error r
      | .ok (name, ts2) =>
        match getStart "value" ts2 with
        | .error r => .error r
        | .ok (_, ts3) =>
          match parseValue f ts3 with
          | .error r => .error r
          | .ok (v, ts4) =>
            match checkLast "value" ts4 with
            | .error r => .error r
            | .ok (_, ts5) =>
              match checkLast "member" ts5 with
              | .error r => .error r
              | .ok (_, ts6) => parseMembers f (mapInsert acc name v) ts6

/-- The element loop of the array case of parseValue. -/
def parseItems (fuel : Nat) (acc : List ValueR) (ts : List Tok) : PRes ValueR :=
  match fuel with
  | 0 => .error (.fuelOut, ts)
  | f + 1 =>
    match getStart "value" ts with
    | .error (.notStartElement, ts1) =>
      match checkLast "data" ts1 with
      | .error r => .error r
      | .ok (_, ts2) =>
        match checkLast "array" ts2 with
        | .error r => .error r
        | .ok (_, ts3) => .ok (.array acc, ts3)
    | .error r => .error r
    | .ok (_, ts1) =>
      match parseValue f ts1 with
      | .error r => .error r
      | .ok (v, ts2) =>
        match checkLast "value" ts2 with
        | .error r => .error r
        | .ok (_, ts3) => parseItems f (acc ++ [v]) ts3

end

/-- parseValue with the always-sufficient budget. -/
def parseValueTop (ts : List Tok) : PRes ValueR := parseValue (ts.length + 1) ts

/-- The Fault struct of the source. -/
structure Fault where
  Code : Int
  Message : String
deriving DecidableEq, Repr

/-- Result of Unmarshal: method name, parameters, fault, error — all four
are returned together, exactly as in the source (a non-nil fault can travel
next to a non-nil error when the closing tag check fails). -/
structure UnRes where
  name : String
  params : List ValueR
  fault : Option Fault
  err : Option PErr

/-- The code after the param loop of Unmarshal: checkLast params then
checkLast of the envelope tag; the error variable is reassigned here, so an
error that broke the loop is replaced by the outcome of these checks. -/
def unFinish (typ nm : String) (acc : List ValueR) (ts : List Tok) : UnRes :=
  match checkLast "params" ts with
  | .error (e, _) => ⟨nm, acc, none, some e⟩
  | .ok (_, ts1) =>
    match checkLast typ ts1 with
    | .error (e, _) => ⟨nm, acc, none, some e⟩
    | .ok _ => ⟨nm, acc, none, none⟩

/-- The param loop of Unmarshal.  A parseValue failure breaks the loop and
falls through to unFinish (the source then overwrites the error variable);
a checkLast param failure returns. -/
def unParams (fuel : Nat) (typ nm : String) (acc : List ValueR) (ts : List Tok) : UnRes :=
  match fuel with
  | 0 => ⟨nm, acc, none, some .fuelOut⟩
  | f + 1 =>
    match getStart "param" ts with
    | .error (.notStartElement, ts1) => unFinish typ nm acc ts1
    | .error (e, _) => ⟨nm, acc, none, some e⟩
    | .ok (_, ts1) =>
      match parseValue (ts1.length + 1) ts1 with
      | .error (_, ts2) => unFinish typ nm acc ts2
      | .ok (v, ts2) =>
        match checkLast "param" ts2 with
        | .error (e, _) => ⟨nm, acc ++ [v], none, some e⟩
        | .ok (_, ts3) => unParams f typ nm (acc ++ [v]) ts3

/-- The fault branch of Unmarshal.  The source allocates the fault with code
-1 and empty message before the shape checks, so a shape failure still
returns that partially filled non-nil fault together with the error. -/
def unFault (nm : String) (ts : List Tok) : UnRes :=
  match parseValue (ts.length + 1) ts with
  | .error (e, _) => ⟨nm, [], none, some e⟩
  | .ok (v, ts1) =>
    match v with
    | .strct members =>
      match mapLookup members "faultCode" with
      | none => ⟨nm, [], some ⟨-1, ""⟩, some (.faultShape "no faultCode in fault")⟩
      | some cv =>
        match cv with
        | .int c =>
          match mapLookup members "faultString" with
          | none => ⟨nm, [], some ⟨c, ""⟩, some (.faultShape "no faultString in fault")⟩
          | some sv =>
            match sv with
            | .str m =>
              match checkLast "fault" ts1 with
              | .error (e, _) => ⟨nm, [], some ⟨c, m⟩, some e⟩
              | .ok _ => ⟨nm, [], some ⟨c, m⟩, none⟩
            | _ => ⟨nm, [], some ⟨c, ""⟩, some (.faultShape "faultString not string")⟩
        | _ => ⟨nm, [], some ⟨-1, ""⟩, some (.faultShape "faultCode not int")⟩
    | _ => ⟨nm, [], none, some (.faultShape "fault not fault")⟩

/-- Unmarshal after the envelope and method name: open params, or take the
fault alternative exactly when the failure is a name mismatch whose found
element is fault. -/
def unAfterEnvelope (typ nm : String) (ts : List Tok) : UnRes :=
  match getStart "params" ts with
  | .ok (_, ts1) => unParams (ts1.length + 1) typ nm [] ts1
  | .error (.nameMismatch found, ts1) =>
    if found = "fault" then unFault nm ts1
    else ⟨nm, [], none, some (.nameMismatch found)⟩
  | .error (e, _) => ⟨nm, [], none, some e⟩

/-- Unmarshal of the source, over the token stream.  Opening the envelope
tolerates a name mismatch by switching to the methodCall reading (and, as in
the source, any other opening error is dropped and reading continues on the
stream the failing fetch left behind). -/
def Unmarshal (ts : List Tok) : UnRes :=
  match getStart "methodResponse" ts with
  | .ok (_, ts1) => unAfterEnvelope "methodResponse" "" ts1
  | .error (.nameMismatch _, ts1) =>
    match getText ts1 with
    | .error (e, _) => ⟨"", [], none, some e⟩
    | .ok (nm, ts2) => unAfterEnvelope "methodCall" nm ts2
  | .error (_, ts1) => unAfterEnvelope "methodResponse" "" ts1

/-- The dynamically typed Go values handed to the encoder (the interface
arguments of Marshal/WriteXML).  Reflection kinds with no wire
representation are explicit constructors; a Go struct field carries its
name, its xml tag (empty when absent), and its value; a float64 argument is
abstracted to its fmt %v rendering. -/
inductive GoVal
  | boolV (b : Bool)
  | intV (i : Int)
  | doubleV (repr : String)
  | strV (s : String)
  | bytesV (bs : List Nat)
  | timeV (t : GoTime)
  | arrV (elems : List GoVal)
  | mapV (entries : List (String × GoVal))
  | structV (fields : List (String × String × GoVal))
  | faultV (f : Fault)
  | faultPtrV (p : Option Fault)
  | errV (msg : String)
  | ptrV (p : Option GoVal)
  | chanV
  | funcV
  | uintptrV
  | complexV
  | unsafePtrV
  | invalidV

/-- getFault of the source: a Fault value, a non-nil Fault pointer, or any
other error value (projected to code -1 with its Error text); a nil Fault
pointer falls through all three tests. -/
def getFault : GoVal → Option Fault
  | .faultV f => some f
  | .faultPtrV (some f) => some f
  | .errV msg => some ⟨-1, msg⟩
  | _ => none

/-- Fault.WriteXML of the source: the raw template with its literal newlines
and three tabs of indentation, the code through %d and the escaped message
through %s. -/
def faultXML (f : Fault) : String :=
  "<fault><value><struct>\n\t\t\t<member><name>faultCode</name><value><int>" ++ intToDec f.Code ++
    "</int></value></member>\n\t\t\t<member><name>faultString</name><value><string>" ++
    xmlEscape f.Message ++ "</string></value></member>\n\t\t\t</struct></value></fault>"

/-- Encoder failures.  unsupported stands for Errorf2(ErrUnsupported, ...)
— an error value that ErrEq-matches the ErrUnsupported sentinel and carries
a description of the offending value; panicked stands for a Go runtime
panic, which is not an error return at all but an abort of the call. -/
inductive EncErr
  | unsupported (desc : String)
  | panicked (msg : String)
deriving DecidableEq, Repr

mutual

/-- WriteXML of the source over the encoder value universe.  A nil
interface value panics at r.Type() before the kind switch is reached (the
reflect.Invalid arm of the switch is therefore unreachable); a nil non-Fault
pointer is Indirect-ed to the zero Value whose Interface() call panics in
the recursive invocation; an unsafe pointer panics at r.Elem().  The writer
is modelled as infallible, and an error return carries no partial output
(the source may have already written a prefix — no claim inspects it). -/
def WriteXML (v : GoVal) (typ : Bool) : Except EncErr String :=
  match getFault v with
  | some f => .ok (faultXML f)
  | none =>
    match v with
    | .faultV f => .ok (faultXML f)
    | .faultPtrV (some f) => .ok (faultXML f)
    | .errV msg => .ok (faultXML ⟨-1, msg⟩)
    | .faultPtrV none => .error (.panicked "reflect: call of reflect.Value.Interface on zero Value")
    | .bytesV bs => .ok ("<base64>" ++ base64Enc bs ++ "</base64>")
    | .timeV t => .ok ("<dateTime.iso8601>" ++ timeFormatFull t ++ "</dateTime.iso8601>")
    | .invalidV => .error (.panicked "reflect: call of reflect.Value.Type on zero Value")
    | .uintptrV => .error (.unsupported "k=uintptr")
    | .complexV => .error (.unsupported "k=complex128")
    | .chanV => .error (.unsupported "k=chan")
    | .funcV => .error (.unsupported "k=func")
    | .boolV b => .ok ("<boolean>" ++ (if b then "true" else "false") ++ "</boolean>")
    | .intV i => .ok (if typ then "<int>" ++ intToDec i ++ "</int>" else intToDec i)
    | .doubleV r => .ok (if typ then "<double>" ++ r ++ "</double>" else r)
    | .arrV elems =>
      match writeArr elems typ with
      | .error e => .error e
      | .ok inner => .ok ("<array><data>\n" ++ inner ++ "</data></array>\n")
    | .mapV entries =>
      match writeMap entries typ with
      | .error e => .error e
      | .ok inner => .ok ("<struct>\n" ++ inner ++ "</struct>")
    | .structV fields =>
      match writeFields fields with
      | .error e => .error e
      | .ok inner => .ok ("<struct>" ++ inner ++ "</struct>")
    | .ptrV none => .error (.panicked "reflect: call of reflect.Value.Interface on zero Value")
    | .ptrV (some x) => WriteXML x typ
    | .strV s => .ok (if typ then "<string>" ++ xmlEscape s ++ "</string>" else xmlEscape s)
    | .unsafePtrV => .error (.panicked "reflect: call of reflect.Value.Elem on unsafe.Pointer Value")

/-- The slice/array loop of WriteXML. -/
def writeArr : List GoVal → Bool → Except EncErr String
  | [], _ => .ok ""
  | x :: rest, typ =>
    match WriteXML x typ with
    | .error e => .error e
    | .ok sx =>
      match writeArr rest typ with
      | .error e => .error e
      | .ok srest => .ok ("  <value>" ++ sx ++ "</value>\n" ++ srest)

/-- The map loop of WriteXML; the entry list fixes one Go map iteration
order, which Go leaves unspecified. -/
def writeMap : List (String × GoVal) → Bool → Except EncErr String
  | [], _ => .ok ""
  | (k, x) :: rest, typ =>
    match WriteXML x typ with
    | .error e => .error e
    | .ok sx =>
      match writeMap rest typ with
      | .error e => .error e
      | .ok srest =>
        .ok ("  <member><name>" ++ xmlEscape k ++ "</name><value>" ++ sx ++ "</value></member>\n" ++ srest)

/-- The struct-field loop of WriteXML: a field whose first character is not
changed by lower-casing is unexported and skipped; the xml tag overrides the
wire name; field values are always written typed. -/
def writeFields : List (String × String × GoVal) → Except EncErr String
  | [] => .ok ""
  | (nm, tag, x) :: rest =>
    if (nm.take 1).toLower = nm.take 1 then writeFields rest
    else
      match WriteXML x true with
      | .error e => .error e
      | .ok sx =>
        match writeFields rest with
        | .error e => .error e
        | .ok srest =>
          .ok ("<member><name>" ++ xmlEscape (if tag = "" then nm else tag) ++ "</name><value>" ++
            sx ++ "</value></member>" ++ srest)

end

/-- The param block writer of Marshal: one param per argument, typed. -/
def marshalParams : List GoVal → Except EncErr String
  | [] => .ok ""
  | a :: rest =>
    match WriteXML a true with
    | .error e => .error e
    | .ok sa =>
      match marshalParams rest with
      | .error e => .error e
      | .ok srest => .ok ("  <param><value>" ++ sa ++ "</value></param>\n" ++ srest)

/-- Marshal of the source: a methodResponse envelope when the name is empty
(with the fault short-circuit on a fault-like first argument), otherwise a
methodCall envelope with the escaped method name. -/
def Marshal (name : String) (args : List GoVal) : Except EncErr String :=
  if name = "" then
    match args with
    | a :: _ =>
      match getFault a with
      | some f => .ok ("<methodResponse>" ++ faultXML f ++ "\n</methodResponse>")
      | none =>
        match marshalParams args with
        | .error e => .error e
        | .ok body => .ok ("<methodResponse>" ++ "<params>\n" ++ body ++ "</params></methodResponse>")
    | [] =>
      match marshalParams [] with
      | .error e => .error e
      | .ok body => .ok ("<methodResponse>" ++ "<params>\n" ++ body ++ "</params></methodResponse>")
  else
    match marshalParams args with
    | .error e => .error e
    | .ok body =>
      .ok ("<methodCall><methodName>" ++ xmlEscape name ++ "</methodName>\n" ++ "<params>\n" ++
        body ++ "</params></methodCall>")

/-- Go error values as ErrEq observes them: a sentinel made by errors.New
(identity given by an allocation id — two distinct errors.New values never
compare equal in Go even with equal text) or an errorStruct wrapper holding
a main error and a detail message.  Wrapper values are fresh allocations, so
two wrappers never compare equal as interface values; in this codec ErrEq
only ever compares unwrapped sentinels. -/
inductive GoErr
  | sentinel (id : Nat)
  | errorStruct (main : GoErr) (message : String)
deriving DecidableEq, Repr

/-- Errorf2 of the source: wrap the main error with a formatted message (the
formatting itself is irrelevant to matching and is received here already
rendered). -/
def Errorf2 (err : GoErr) (message : String) : GoErr := .errorStruct err message

/-- The unwrapping both sides of ErrEq perform: one level of errorStruct
(value or pointer receiver in the source) replaced by its main error. -/
def errMain : GoErr → GoErr
  | .errorStruct m _ => m
  | e => e

/-- Go interface equality on the unwrapped errors: sentinel identity;
a comparison involving a wrapper allocation is never true. -/
def goIfaceEq : GoErr → GoErr → Bool
  | .sentinel i, .sentinel j => i = j
  | _, _ => false

/-- ErrEq of the source: unwrap each side, then compare the main errors. -/
def ErrEq (a b : GoErr) : Bool := goIfaceEq (errMain a) (errMain b)

/-- A plain character for the tokenizer text mode: not markup, not an
entity start, not a carriage return, and inside the XML character range. -/
def plainChar (c : Char) : Prop :=
  c ≠ '<' ∧ c ≠ '&' ∧ c ≠ '\r' ∧ isInCharacterRange c.toNat = true

/-- Written from claim C8: the body is a decimal integer representable as a
32-bit signed integer — an optional sign followed by a nonempty digit run,
whose signed value is i, with i in the 32-bit two-complement range. -/
def DecimalInt32 (b : String) (i : Int) : Prop :=
  ∃ sign ds, b.toList = sign ++ ds ∧ (sign = [] ∨ sign = ['+'] ∨ sign = ['-']) ∧
    ds ≠ [] ∧ ds.all Char.isDigit = true ∧
    i = (if sign = ['-'] then -(digitsVal ds : Int) else (digitsVal ds : Int)) ∧
    -(2 ^ 31) ≤ i ∧ i < 2 ^ 31



/-- A token document parses as a value: from any continuation and any fuel
above the document length, parseValue consumes exactly the document and
returns the value. -/
def ParsesAs (d : List Tok) (v : ValueR) : Prop :=
  ∀ rest fuel, d.length < fuel → parseValue fuel (d ++ rest) = .ok (v, rest)

/-- The member element of a struct document: a name element then a value
element holding the member document. -/
def memberToks (nm : String) (d : List Tok) : List Tok :=
  [.start "member", .start "name", .text nm, .stop "name", .start "value"] ++ d ++
    [.stop "value", .stop "member"]

/-- A well-formed struct document over the given members. -/
def structToks (ms : List (String × List Tok × ValueR)) : List Tok :=
  .start "struct" :: ((ms.map fun m => memberToks m.1 m.2.1).flatten ++ [.stop "struct"])

/-- The map the decoder builds: Go map assignments in document order. -/
def insertAllV (ms : List (String × List Tok × ValueR)) : List (String × ValueR) :=
  List.foldl (fun a m => mapInsert a m.1 m.2.2) [] ms

/-- The value of the last member with the given name, written from the
claim: the last occurrence in document order wins. -/
def lastNamed (k : String) : List (String × List Tok × ValueR) → Option ValueR
  | [] => none
  | m :: rest =>
    match lastNamed k rest with
    | some v => some v
    | none => if m.1 = k then some m.2.2 else none

set_option maxRecDepth 1000000

theorem string_empty_append (s : String) : "" ++ s = s := by
  cases s
  rfl

theorem digit_ne_sign {c : Char} (h : c.isDigit = true) : c ≠ '+' ∧ c ≠ '-' :=
  ⟨by rintro rfl; exact absurd h (by decide), by rintro rfl; exact absurd h (by decide)⟩

theorem goParseIntC_plus (bitSize : Nat) (rest : List Char) :
    goParseIntC bitSize ('+' :: rest) =
      (if rest = [] ∨ ¬ rest.all Char.isDigit then none
       else if -(2 ^ (bitSize - 1) : Int) ≤ (digitsVal rest : Int) ∧
           (digitsVal rest : Int) ≤ (2 ^ (bitSize - 1) : Int) - 1 then
         some ((digitsVal rest : Int))
       else none) := by
  simp [goParseIntC]

theorem goParseIntC_minus (bitSize : Nat) (rest : List Char) :
    goParseIntC bitSize ('-' :: rest) =
      (if rest = [] ∨ ¬ rest.all Char.isDigit then none
       else if -(2 ^ (bitSize - 1) : Int) ≤ -(digitsVal rest : Int) ∧
           -(digitsVal rest : Int) ≤ (2 ^ (bitSize - 1) : Int) - 1 then
         some (-(digitsVal rest : Int))
       else none) := by
  simp [goParseIntC]

theorem goParseIntC_plain (bitSize : Nat) (c : Char) (rest : List Char)
    (h1 : c ≠ '+') (h2 : c ≠ '-') :
    goParseIntC bitSize (c :: rest) =
      (if ¬ (c :: rest).all Char.isDigit then none
       else if -(2 ^ (bitSize - 1) : Int) ≤ (digitsVal (c :: rest) : Int) ∧
           (digitsVal (c :: rest) : Int) ≤ (2 ^ (bitSize - 1) : Int) - 1 then
         some ((digitsVal (c :: rest) : Int))
       else none) := by
  simp [goParseIntC, h1, h2]

theorem goParseInt32_iff (b : String) (i : Int) :
    goParseIntB 32 b = some i ↔ DecimalInt32 b i := by
  rw [goParseIntB]
  constructor
  · intro h
    rcases hb : b.toList with _ | ⟨c, rest⟩ <;> rw [hb] at h
    · exact absurd h (by simp [goParseIntC])
    · by_cases hp : c = '+'
      · subst hp
        rw [goParseIntC_plus] at h
        by_cases hc : rest = [] ∨ ¬ rest.all Char.isDigit
        · rw [if_pos hc] at h
          exact absurd h (by simp)
        · rw [if_neg hc] at h
          push_neg at hc
          by_cases hr : -(2 ^ (32 - 1) : Int) ≤ (digitsVal rest : Int) ∧
              (digitsVal rest : Int) ≤ (2 ^ (32 - 1) : Int) - 1
          · rw [if_pos hr] at h
            have hi : i = (digitsVal rest : Int) := (Option.some.inj h).symm
            exact ⟨['+'], rest, hb, by simp, hc.1, hc.2, by simp [hi], by omega, by omega⟩
          · rw [if_neg hr] at h
            exact absurd h (by simp)
      · by_cases hm : c = '-'
        · subst hm
          rw [goParseIntC_minus] at h
          by_cases hc : rest = [] ∨ ¬ rest.all Char.isDigit
          · rw [if_pos hc] at h
            exact absurd h (by simp)
          · rw [if_neg hc] at h
            push_neg at hc
            by_cases hr : -(2 ^ (32 - 1) : Int) ≤ -(digitsVal rest : Int) ∧
                -(digitsVal rest : Int) ≤ (2 ^ (32 - 1) : Int) - 1
            · rw [if_pos hr] at h
              have hi : i = -(digitsVal rest : Int) := (Option.some.inj h).symm
              exact ⟨['-'], rest, hb, by simp, hc.1, hc.2, by simp [hi], by omega, by omega⟩
            · rw [if_neg hr] at h
              exact absurd h (by simp)
        · rw [goParseIntC_plain 32 c rest hp hm] at h
          by_cases hc : ¬ (c :: rest).all Char.isDigit
          · rw [if_pos hc] at h
            exact absurd h (by simp)
          · rw [if_neg hc] at h
            push_neg at hc
            by_cases hr : -(2 ^ (32 - 1) : Int) ≤ (digitsVal (c :: rest) : Int) ∧
                (digitsVal (c :: rest) : Int) ≤ (2 ^ (32 - 1) : Int) - 1
            · rw [if_pos hr] at h
              have hi : i = (digitsVal (c :: rest) : Int) := (Option.some.inj h).symm
              exact ⟨[], c :: rest, hb, by simp, by simp, hc, by simp [hi], by omega, by omega⟩
            · rw [if_neg hr] at h
              exact absurd h (by simp)
  · rintro ⟨sign, ds, hb, hsign, hne, hdig, hi, hlo, hhi⟩
    rcases hsign with rfl | rfl | rfl
    · rw [List.nil_append] at hb
      rcases hds : ds with _ | ⟨c, rest⟩
      · exact absurd hds hne
      · subst hds
        have hcd : c.isDigit = true := by
          simp [List.all_cons] at hdig
          exact hdig.1
        have hcs := digit_ne_sign hcd
        rw [hb, goParseIntC_plain 32 c rest hcs.1 hcs.2, if_neg (by simp [hdig]),
          if_pos (by simp at hi; omega)]
        simp at hi
        simp [hi]
    · rw [hb, List.singleton_append, goParseIntC_plus,
        if_neg (by push_neg; exact ⟨hne, hdig⟩), if_pos (by simp at hi; omega)]
      simp at hi
      simp [hi]
    · rw [hb, List.singleton_append, goParseIntC_minus,
        if_neg (by push_neg; exact ⟨hne, hdig⟩), if_pos (by simp at hi; omega)]
      simp at hi
      simp [hi]

/-- C2: when the method name is empty and the first argument is fault-like
(getFault recognizes it), Marshal writes exactly the methodResponse
envelope around the fault and returns without error, whatever the
remaining arguments are — they are never encoded. -/
theorem C2_fault_short_circuit (a : GoVal) (rest : List GoVal) (f : Fault)
    (h : getFault a = some f) :
    Marshal "" (a :: rest) = .ok ("<methodResponse>" ++ faultXML f ++ "\n</methodResponse>") := by
  simp [Marshal, h]

/-- Witness for C2 at a concrete input: the extra argument is a channel
value, which would make encoding fail were it reached; the fault
short-circuit never reaches it. -/
theorem C2_fault_short_circuit_witness :
    getFault (.faultV ⟨7, "bad"⟩) = some ⟨7, "bad"⟩ ∧
    Marshal "" [.faultV ⟨7, "bad"⟩, .chanV] =
      .ok ("<methodResponse>" ++ faultXML ⟨7, "bad"⟩ ++ "\n</methodResponse>") :=
  ⟨rfl, C2_fault_short_circuit (.faultV ⟨7, "bad"⟩) [.chanV] ⟨7, "bad"⟩ rfl⟩

/-- C3, settled as a code bug: channels, functions, uintptr and complex
values do return the ErrUnsupported-matching error, but an invalid (nil)
value panics at r.Type() before the kind switch — the reflect.Invalid arm
the source lists in its unsupported branch is unreachable — and an unsafe
pointer panics at r.Elem(); the claim and the spec require a returned
unsupported-type error, not a panic, for those too. -/
theorem C3_unsupported_kinds :
    WriteXML .chanV true = .error (.unsupported "k=chan") ∧
    WriteXML .funcV true = .error (.unsupported "k=func") ∧
    WriteXML .uintptrV true = .error (.unsupported "k=uintptr") ∧
    WriteXML .complexV true = .error (.unsupported "k=complex128") ∧
    WriteXML .invalidV true =
      .error (.panicked "reflect: call of reflect.Value.Type on zero Value") ∧
    WriteXML .unsafePtrV true =
      .error (.panicked "reflect: call of reflect.Value.Elem on unsafe.Pointer Value") := by
  refine ⟨?_, ?_, ?_, ?_, ?_, ?_⟩ <;> simp [WriteXML, getFault]

/-- C4 counterexample: the code emits a newline directly after the closing
methodName tag, so the output of Marshal on get_name with no arguments is
not the byte sequence the claim states (which has no newline there). -/
theorem C4_counterexample :
    Marshal "get_name" [] =
      .ok "<methodCall><methodName>get_name</methodName>\n<params>\n</params></methodCall>" ∧
    "<methodCall><methodName>get_name</methodName>\n<params>\n</params></methodCall>" ≠
      "<methodCall><methodName>get_name</methodName><params>\n</params></methodCall>" :=
  ⟨rfl, by decide⟩

/-- C4, amended: the exact output has a newline after the closing
methodName tag and one inside the empty params block, and tokenizing and
unmarshalling that exact byte sequence yields method name get_name, an
empty parameter list, no fault, and no error. -/
theorem C4_envelope_round_trip :
    Marshal "get_name" [] =
      .ok "<methodCall><methodName>get_name</methodName>\n<params>\n</params></methodCall>" ∧
    (tokenize "<methodCall><methodName>get_name</methodName>\n<params>\n</params></methodCall>").map
      (fun ts => ((Unmarshal ts).name, (Unmarshal ts).params, (Unmarshal ts).fault,
        (Unmarshal ts).err)) = .ok ("get_name", [], none, none) :=
  ⟨rfl, rfl⟩

/-- C9: wrapping a sentinel with Errorf2 preserves ErrEq-matching against
the sentinel, in both argument orders, and ErrEq is reflexive on
sentinels.  A sentinel is identified by its allocation id; the formatted
detail message (any format string and arguments, received here already
rendered) never influences the match. -/
theorem C9_erreq_wrap (i : Nat) (msg : String) :
    ErrEq (Errorf2 (.sentinel i) msg) (.sentinel i) = true ∧
    ErrEq (.sentinel i) (Errorf2 (.sentinel i) msg) = true ∧
    ErrEq (.sentinel i) (.sentinel i) = true := by
  refine ⟨?_, ?_, ?_⟩ <;> simp [ErrEq, Errorf2, errMain, goIfaceEq]

/-- C5: decoding a dateTime.iso8601 element with body b tries the four
layouts in the fixed source order — full-offset, local without offset,
dense local, dense with offset — and returns the time of the first layout
that parses; when all four fail the result is the conversion error. -/
theorem C5_datetime_format_order (b : String) :
    parseValueTop [.start "dateTime.iso8601", .text b, .stop "dateTime.iso8601"] =
      (match timeParseFull b with
       | some t => .ok (.time t, [])
       | none =>
         match timeParseLocal b with
         | some t => .ok (.time t, [])
         | none =>
           match timeParseDense b with
           | some t => .ok (.time t, [])
           | none =>
             match timeParseDummy b with
             | some t => .ok (.time t, [])
             | none => .error (.conv, [])) := by
  have hdb : decodeBody [Tok.text b, Tok.stop "dateTime.iso8601"] = some (b, []) := by
    simp [decodeBody, decodeBodyAux, string_empty_append]
  simp [parseValueTop, parseValue, getStart, nextStruct, simpleTags, hdb, convertLeaf,
    tryFormats, timeParseWith, dateFormats]
  cases timeParseFull b <;> cases timeParseLocal b <;> cases timeParseDense b <;>
    cases timeParseDummy b <;> simp

/-- C8: for the int family of elements, parseValue succeeds with the integer
value exactly when the body is a decimal integer representable as a 32-bit
signed integer (DecimalInt32, written from the claim), and errors with the
conversion error — never a silent zero — when no such integer exists. -/
theorem C8_int32_conversion (tag b : String)
    (htag : tag = "int" ∨ tag = "i1" ∨ tag = "i2" ∨ tag = "i4") :
    (∀ i : Int,
      parseValueTop [.start tag, .text b, .stop tag] = .ok (.int i, []) ↔ DecimalInt32 b i) ∧
    ((∀ i : Int, ¬ DecimalInt32 b i) →
      parseValueTop [.start tag, .text b, .stop tag] = .error (.conv, [])) := by
  have key : ∀ i : Int, goParseIntB 32 b = some i ↔ DecimalInt32 b i :=
    fun i => goParseInt32_iff b i
  have hred : parseValueTop [.start tag, .text b, .stop tag] =
      (match goParseIntB 32 b with
       | some i => .ok (.int i, [])
       | none => .error (.conv, [])) := by
    have hdb : decodeBody [Tok.text b, Tok.stop tag] = some (b, []) := by
      simp [decodeBody, decodeBodyAux, string_empty_append]
    rcases htag with rfl | rfl | rfl | rfl <;>
      simp [parseValueTop, parseValue, getStart, nextStruct, simpleTags, hdb, convertLeaf] <;>
      cases goParseIntB 32 b <;> rfl
  rw [hred]
  constructor
  · intro i
    cases hg : goParseIntB 32 b with
    | some j =>
      rw [← key i, hg]
      simp [eq_comm]
    | none =>
      simp only []
      constructor
      · intro hfalse
        exact absurd hfalse (by simp)
      · intro hd
        have h2 := (key i).mpr hd
        rw [hg] at h2
        exact absurd h2 (by simp)
  · intro hno
    cases hg : goParseIntB 32 b with
    | some j => exact absurd ((key j).mp hg) (hno j)
    | none => simp

/-- Witness for C8 at the concrete body 12 under the int tag. -/
theorem C8_int32_conversion_witness :
    parseValueTop [.start "int", .text "12", .stop "int"] = .ok (.int 12, []) := by
  refine ((C8_int32_conversion "int" "12" (Or.inl rfl)).1 12).mpr ?_
  exact ⟨[], ['1', '2'], by decide, Or.inl rfl, by decide, by decide, by decide,
    by decide, by decide⟩



theorem string_toList_append (a b : String) : (a ++ b).toList = a.toList ++ b.toList := rfl

theorem tkRun_plain (toks : List Tok) (acc : List Char) (cs : List Char)
    (h : ∀ c ∈ cs, plainChar c) :
    List.foldl tkStep ⟨toks, .text acc, false, none⟩ cs = ⟨toks, .text (acc ++ cs), false, none⟩ := by
  induction cs generalizing acc with
  | nil => simp
  | cons c rest ih =>
    have hc := h c (by simp)
    have hrest : ∀ x ∈ rest, plainChar x := fun x hx => h x (by simp [hx])
    rw [List.foldl_cons]
    have hstep : tkStep ⟨toks, .text acc, false, none⟩ c = ⟨toks, .text (acc ++ [c]), false, none⟩ := by
      simp [tkStep, hc.1, hc.2.1, hc.2.2.1, hc.2.2.2]
    rw [hstep, ih (acc ++ [c]) hrest]
    simp

theorem string_foldl_append (a : String) (l : List String) :
    (List.foldl (fun r s => r ++ s) a l).data = a.data ++ (List.foldl (fun r s => r ++ s) "" l).data := by
  induction l generalizing a with
  | nil => simp
  | cons s rest ih =>
    rw [List.foldl_cons, List.foldl_cons, ih (a ++ s), ih ("" ++ s)]
    have h1 : (a ++ s).data = a.data ++ s.data := rfl
    have h2 : ("" ++ s).data = s.data := by
      show ([] : List Char) ++ s.data = s.data
      simp
    rw [h1, h2, List.append_assoc]

theorem string_join_cons (s : String) (l : List String) :
    String.join (s :: l) = s ++ String.join l := by
  apply String.ext
  show (List.foldl (fun r t => r ++ t) ("" ++ s) l).data = (s ++ String.join l).data
  rw [string_foldl_append ("" ++ s) l]
  have h2 : ("" ++ s).data = s.data := by
    show ([] : List Char) ++ s.data = s.data
    simp
  rw [h2]
  rfl

theorem tkRun_escape (toks : List Tok) (acc : List Char) (cs : List Char)
    (h : ∀ c ∈ cs, c ≠ '\r' ∧ isInCharacterRange c.toNat = true) :
    List.foldl tkStep ⟨toks, .text acc, false, none⟩ (String.join (cs.map escChar)).toList =
      ⟨toks, .text (acc ++ cs), false, none⟩ := by
  induction cs generalizing acc with
  | nil => simp [String.join]
  | cons c rest ih =>
    have hc := h c (by simp)
    have hrest : ∀ x ∈ rest, x ≠ '\r' ∧ isInCharacterRange x.toNat = true :=
      fun x hx => h x (by simp [hx])
    have hjoin : (String.join ((c :: rest).map escChar)).toList =
        (escChar c).toList ++ (String.join (rest.map escChar)).toList := by
      rw [List.map_cons, string_join_cons]
      rfl
    rw [hjoin, List.foldl_append]
    have hone : List.foldl tkStep ⟨toks, .text acc, false, none⟩ (escChar c).toList =
        ⟨toks, .text (acc ++ [c]), false, none⟩ := by
      by_cases h1 : c = '<'
      · subst h1
        simp [escChar, tkStep, decodeEntity]
      · by_cases h2 : c = '>'
        · subst h2
          simp [escChar, tkStep, decodeEntity]
        · by_cases h3 : c = '"'
          · subst h3
            simp [escChar, tkStep, decodeEntity]
          · by_cases h4 : c = Char.ofNat 39
            · subst h4
              simp [escChar, tkStep, decodeEntity]
            · by_cases h5 : c = '&'
              · subst h5
                simp [escChar, tkStep, decodeEntity]
              · have : escChar c = String.singleton c := by
                  simp [escChar, h1, h2, h3, h4, h5]
                rw [this]
                have hl : (String.singleton c).toList = [c] := rfl
                rw [hl]
                simp [tkStep, h1, h5, hc.1, hc.2]
    rw [hone, ih (acc ++ [c]) hrest]
    simp



theorem natDigitsAux_digits (f n : Nat) : ∀ c ∈ natDigitsAux f n, c.isDigit = true := by
  induction f generalizing n with
  | zero => simp [natDigitsAux]
  | succ f ih =>
    intro c hc
    rw [natDigitsAux] at hc
    by_cases h : n < 10
    · rw [if_pos h] at hc
      simp at hc
      subst hc
      have : n ≤ 9 := by omega
      interval_cases n <;> decide
    · rw [if_neg h] at hc
      simp at hc
      rcases hc with hc | hc
      · exact ih (n / 10) c hc
      · subst hc
        have h10 : n % 10 < 10 := Nat.mod_lt n (by omega)
        set m := n % 10 with hm
        clear_value m
        interval_cases m <;> decide

theorem natDigitsAux_inRange (f n : Nat) :
    ∀ c ∈ natDigitsAux f n, isInCharacterRange c.toNat = true := by
  induction f generalizing n with
  | zero => simp [natDigitsAux]
  | succ f ih =>
    intro c hc
    rw [natDigitsAux] at hc
    by_cases h : n < 10
    · rw [if_pos h] at hc
      simp at hc
      subst hc
      have : n ≤ 9 := by omega
      interval_cases n <;> decide
    · rw [if_neg h] at hc
      simp at hc
      rcases hc with hc | hc
      · exact ih (n / 10) c hc
      · subst hc
        have h10 : n % 10 < 10 := Nat.mod_lt n (by omega)
        set m := n % 10 with hm
        clear_value m
        interval_cases m <;> decide

theorem digitsVal_append_one (xs : List Char) (c : Char) :
    digitsVal (xs ++ [c]) = 10 * digitsVal xs + dval c := by
  simp [digitsVal, List.foldl_append]

theorem digitsVal_natDigitsAux (f n : Nat) (h : n < f) :
    digitsVal (natDigitsAux f n) = n := by
  induction f generalizing n with
  | zero => omega
  | succ f ih =>
    rw [natDigitsAux]
    by_cases h10 : n < 10
    · rw [if_pos h10]
      have h9 : n ≤ 9 := by omega
      interval_cases n <;> decide
    · rw [if_neg h10]
      rw [digitsVal_append_one]
      have hdiv : n / 10 < f := by
        have h1 : n / 10 < n := Nat.div_lt_self (by omega) (by omega)
        omega
      rw [ih (n / 10) hdiv]
      have h10m : n % 10 < 10 := Nat.mod_lt n (by omega)
      have hdv : dval (digitToChar (n % 10)) = n % 10 := by
        set m := n % 10 with hm
        clear_value m
        interval_cases m <;> decide
      rw [hdv]
      omega

theorem natDigits_ne_nil (n : Nat) : natDigits n ≠ [] := by
  rw [natDigits, natDigitsAux]
  by_cases h : n < 10
  · simp [h]
  · simp [h]

theorem digitsVal_natDigits (n : Nat) : digitsVal (natDigits n) = n :=
  digitsVal_natDigitsAux (n + 1) n (by omega)

theorem natDigits_all_digits (n : Nat) : (natDigits n).all Char.isDigit = true := by
  rw [List.all_eq_true]
  intro c hc
  exact natDigitsAux_digits (n + 1) n c hc

theorem goParseInt_intToDec (code : Int) (h1 : -(2 ^ 31) ≤ code) (h2 : code < 2 ^ 31) :
    goParseIntB 32 (intToDec code) = some code := by
  rw [goParseIntB]
  by_cases hneg : code < 0
  · have htl : (intToDec code).toList = '-' :: natDigits code.natAbs := by
      rw [intToDec, if_pos hneg]
      rfl
    rw [htl, goParseIntC_minus,
      if_neg (by push_neg; exact ⟨natDigits_ne_nil _, natDigits_all_digits _⟩)]
    rw [digitsVal_natDigits]
    rw [if_pos (by constructor <;> omega)]
    congr 1
    omega
  · have htl : (intToDec code).toList = natDigits code.natAbs := by
      rw [intToDec, if_neg hneg]
      rfl
    rcases hds : natDigits code.natAbs with _ | ⟨c, rest⟩
    · exact absurd hds (natDigits_ne_nil _)
    · have hcd : c.isDigit = true := by
        have := natDigitsAux_digits (code.natAbs + 1) code.natAbs c
        rw [← natDigits] at this
        exact this (by rw [hds]; simp)
      have hcs := digit_ne_sign hcd
      rw [htl, hds, goParseIntC_plain 32 c rest hcs.1 hcs.2]
      have hall : (c :: rest).all Char.isDigit = true := by
        rw [← hds]
        exact natDigits_all_digits _
      have hval : digitsVal (c :: rest) = code.natAbs := by
        rw [← hds]
        exact digitsVal_natDigits _
      rw [if_neg (by simp [hall]), hval, if_pos (by constructor <;> omega)]
      congr 1
      omega



theorem tkRun_frozen (cs : List Char) (st : TkState) (h : st.err.isSome) :
    List.foldl tkStep st cs = st := by
  induction cs with
  | nil => rfl
  | cons c rest ih =>
    rw [List.foldl_cons]
    have hstep : tkStep st c = st := by
      rw [tkStep, if_pos h]
    rw [hstep, ih]

theorem tkStep_shift (T : List Tok) (m : TkMode) (cr : Bool) (c : Char) :
    tkStep ⟨T, m, cr, none⟩ c =
      ⟨T ++ (tkStep ⟨[], m, cr, none⟩ c).toks, (tkStep ⟨[], m, cr, none⟩ c).mode,
        (tkStep ⟨[], m, cr, none⟩ c).lastCR, (tkStep ⟨[], m, cr, none⟩ c).err⟩ := by
  have hflush : ∀ acc, flushText T acc = T ++ flushText [] acc := by
    intro acc
    by_cases h : acc = []
    · simp [flushText, h]
    · simp [flushText, h]
  cases m with
  | text acc =>
    simp only [tkStep]
    split_ifs <;> simp_all [hflush]
  | ent eacc acc =>
    simp only [tkStep]
    split_ifs <;> simp_all <;> cases decodeEntity eacc <;> simp
  | tagO =>
    simp only [tkStep]
    split_ifs <;> simp_all
  | tagN closing acc =>
    simp only [tkStep]
    split_ifs <;> simp_all

theorem tkRun_shift (cs : List Char) (T : List Tok) (m : TkMode) (cr : Bool) :
    List.foldl tkStep ⟨T, m, cr, none⟩ cs =
      ⟨T ++ (List.foldl tkStep ⟨[], m, cr, none⟩ cs).toks,
        (List.foldl tkStep ⟨[], m, cr, none⟩ cs).mode,
        (List.foldl tkStep ⟨[], m, cr, none⟩ cs).lastCR,
        (List.foldl tkStep ⟨[], m, cr, none⟩ cs).err⟩ := by
  induction cs generalizing T m cr with
  | nil => simp
  | cons c rest ih =>
    rw [List.foldl_cons, List.foldl_cons, tkStep_shift]
    rcases hs : tkStep ⟨[], m, cr, none⟩ c with ⟨t0, m0, cr0, e0⟩
    cases e0 with
    | none =>
      rw [ih (T ++ t0) m0 cr0, ih t0 m0 cr0]
      simp [List.append_assoc]
    | some e =>
      have h1 : List.foldl tkStep ⟨T ++ t0, m0, cr0, some e⟩ rest = ⟨T ++ t0, m0, cr0, some e⟩ :=
        tkRun_frozen rest _ (by simp)
      have h2 : List.foldl tkStep ⟨t0, m0, cr0, some e⟩ rest = ⟨t0, m0, cr0, some e⟩ :=
        tkRun_frozen rest _ (by simp)
      rw [h1, h2]



theorem tkRun_tagOpen (lit : List Char) (T : List Tok) (acc : List Char) (hacc : acc ≠ []) :
    List.foldl tkStep ⟨T, .text acc, false, none⟩ ('<' :: lit) =
      ⟨(T ++ [.text ⟨acc⟩]) ++ (List.foldl tkStep ⟨[], .tagO, false, none⟩ lit).toks,
        (List.foldl tkStep ⟨[], .tagO, false, none⟩ lit).mode,
        (List.foldl tkStep ⟨[], .tagO, false, none⟩ lit).lastCR,
        (List.foldl tkStep ⟨[], .tagO, false, none⟩ lit).err⟩ := by
  rw [List.foldl_cons]
  have hstep : tkStep ⟨T, .text acc, false, none⟩ '<' = ⟨T ++ [.text ⟨acc⟩], .tagO, false, none⟩ := by
    simp [tkStep, flushText, hacc]
  rw [hstep, tkRun_shift]

theorem intToDec_plain (code : Int) : ∀ c ∈ (intToDec code).toList, plainChar c := by
  intro c hc
  have hdig : (c.isDigit = true ∧ isInCharacterRange c.toNat = true) ∨ c = '-' := by
    rw [intToDec] at hc
    by_cases hneg : code < 0
    · rw [if_pos hneg] at hc
      rw [string_toList_append] at hc
      rcases List.mem_append.mp hc with h | h
      · right
        simpa using h
      · left
        exact ⟨natDigitsAux_digits _ _ c h, natDigitsAux_inRange _ _ c h⟩
    · rw [if_neg hneg] at hc
      left
      exact ⟨natDigitsAux_digits _ _ c hc, natDigitsAux_inRange _ _ c hc⟩
  rcases hdig with ⟨h, hr⟩ | h
  · exact ⟨by rintro rfl; exact absurd h (by decide),
      by rintro rfl; exact absurd h (by decide),
      by rintro rfl; exact absurd h (by decide), hr⟩
  · subst h
    exact ⟨by decide, by decide, by decide, by decide⟩

theorem intToDec_toList_ne_nil (code : Int) : (intToDec code).toList ≠ [] := by
  rw [intToDec]
  by_cases hneg : code < 0
  · rw [if_pos hneg]
    rw [string_toList_append]
    simp
  · rw [if_neg hneg]
    exact natDigits_ne_nil _



theorem flushText_eq (T : List Tok) (acc : List Char) :
    flushText T acc = T ++ (if acc = [] then [] else [Tok.text ⟨acc⟩]) := by
  by_cases h : acc = [] <;> simp [flushText, h]

theorem tkRun_tagOpenF (lit : List Char) (T : List Tok) (acc : List Char) :
    List.foldl tkStep ⟨T, .text acc, false, none⟩ ('<' :: lit) =
      ⟨flushText T acc ++ (List.foldl tkStep ⟨[], .tagO, false, none⟩ lit).toks,
        (List.foldl tkStep ⟨[], .tagO, false, none⟩ lit).mode,
        (List.foldl tkStep ⟨[], .tagO, false, none⟩ lit).lastCR,
        (List.foldl tkStep ⟨[], .tagO, false, none⟩ lit).err⟩ := by
  rw [List.foldl_cons]
  have hstep : tkStep ⟨T, .text acc, false, none⟩ '<' = ⟨flushText T acc, .tagO, false, none⟩ := by
    simp [tkStep]
  rw [hstep, tkRun_shift]

theorem tokenize_fault_response (code : Int) (msg : String)
    (hmsg : ∀ c ∈ msg.toList, c ≠ '\r' ∧ isInCharacterRange c.toNat = true) :
    tokenize ("<methodResponse>" ++ faultXML ⟨code, msg⟩ ++ "\n</methodResponse>") =
      .ok ([.start "methodResponse", .start "fault", .start "value", .start "struct",
            .text "\n\t\t\t", .start "member", .start "name", .text "faultCode", .stop "name",
            .start "value", .start "int", .text (intToDec code), .stop "int", .stop "value",
            .stop "member", .text "\n\t\t\t", .start "member", .start "name",
            .text "faultString", .stop "name", .start "value", .start "string"] ++
           ((if msg.toList = [] then [] else [Tok.text msg]) ++
            [.stop "string", .stop "value", .stop "member", .text "\n\t\t\t", .stop "struct",
             .stop "value", .stop "fault", .text "\n", .stop "methodResponse"])) := by
  have hS : ("<methodResponse>" ++ faultXML ⟨code, msg⟩ ++ "\n</methodResponse>").toList =
      ("<methodResponse><fault><value><struct>\n\t\t\t<member><name>faultCode</name><value><int>").toList ++
        ((intToDec code).toList ++
          (("</int></value></member>\n\t\t\t<member><name>faultString</name><value><string>").toList ++
            ((xmlEscape msg).toList ++
              ("</string></value></member>\n\t\t\t</struct></value></fault>\n</methodResponse>").toList))) := by
    simp only [faultXML, string_toList_append, List.append_assoc]
    rfl
  rw [tokenize, hS]
  rw [List.foldl_append, List.foldl_append, List.foldl_append, List.foldl_append]
  have h1 : List.foldl tkStep tkInit
      ("<methodResponse><fault><value><struct>\n\t\t\t<member><name>faultCode</name><value><int>").toList =
      ⟨[.start "methodResponse", .start "fault", .start "value", .start "struct",
        .text "\n\t\t\t", .start "member", .start "name", .text "faultCode", .stop "name",
        .start "value", .start "int"], .text [], false, none⟩ := rfl
  rw [h1]
  rw [tkRun_plain _ _ _ (fun c hc => intToDec_plain code c hc)]
  have h2 : ("</int></value></member>\n\t\t\t<member><name>faultString</name><value><string>").toList =
      '<' :: ("/int></value></member>\n\t\t\t<member><name>faultString</name><value><string>").toList := rfl
  rw [h2, tkRun_tagOpen _ _ _ (by simpa using intToDec_toList_ne_nil code)]
  have h3 : List.foldl tkStep ⟨[], .tagO, false, none⟩
      ("/int></value></member>\n\t\t\t<member><name>faultString</name><value><string>").toList =
      ⟨[.stop "int", .stop "value", .stop "member", .text "\n\t\t\t", .start "member",
        .start "name", .text "faultString", .stop "name", .start "value", .start "string"],
        .text [], false, none⟩ := rfl
  rw [h3]
  have h4 : (xmlEscape msg).toList = (String.join (msg.toList.map escChar)).toList := rfl
  rw [h4, tkRun_escape _ _ _ hmsg]
  have h5 : ("</string></value></member>\n\t\t\t</struct></value></fault>\n</methodResponse>").toList =
      '<' :: ("/string></value></member>\n\t\t\t</struct></value></fault>\n</methodResponse>").toList := rfl
  rw [h5, tkRun_tagOpenF]
  have h6 : List.foldl tkStep ⟨[], .tagO, false, none⟩
      ("/string></value></member>\n\t\t\t</struct></value></fault>\n</methodResponse>").toList =
      ⟨[.stop "string", .stop "value", .stop "member", .text "\n\t\t\t", .stop "struct",
        .stop "value", .stop "fault", .text "\n", .stop "methodResponse"],
        .text [], false, none⟩ := rfl
  rw [h6]
  rw [flushText_eq]
  simp only [tkFinish, flushText, List.append_assoc]
  simp only [List.nil_append]
  congr 1

theorem unmarshal_fault_tokens (code : Int) (msg : String)
    (h1 : -(2 ^ 31) ≤ code) (h2 : code < 2 ^ 31) :
    Unmarshal ([.start "methodResponse", .start "fault", .start "value", .start "struct",
            .text "\n\t\t\t", .start "member", .start "name", .text "faultCode", .stop "name",
            .start "value", .start "int", .text (intToDec code), .stop "int", .stop "value",
            .stop "member", .text "\n\t\t\t", .start "member", .start "name",
            .text "faultString", .stop "name", .start "value", .start "string"] ++
           ((if msg.toList = [] then [] else [Tok.text msg]) ++
            [.stop "string", .stop "value", .stop "member", .text "\n\t\t\t", .stop "struct",
             .stop "value", .stop "fault", .text "\n", .stop "methodResponse"])) =
      ⟨"", [], some ⟨code, msg⟩, none⟩ := by
  have hb : ("" ++ intToDec code : String) = intToDec code := string_empty_append _
  have hm : ("" ++ msg : String) = msg := string_empty_append _
  by_cases hms : msg.toList = []
  · have hmsg0 : msg = "" := String.ext hms
    subst hmsg0
    rw [if_pos hms]
    simp [Unmarshal, unAfterEnvelope, unFault, getStart, nextStruct, getText, decodeBody,
      decodeBodyAux, checkLast, parseValue, parseMembers, simpleTags, convertLeaf,
      mapInsert, mapLookup, hb, goParseInt_intToDec code h1 h2]
  · rw [if_neg hms]
    simp [Unmarshal, unAfterEnvelope, unFault, getStart, nextStruct, getText, decodeBody,
      decodeBodyAux, checkLast, parseValue, parseMembers, simpleTags, convertLeaf,
      mapInsert, mapLookup, hb, hm, goParseInt_intToDec code h1 h2]

/-- C6 counterexample: with code 2^31 (outside the 32-bit signed range the
decoder enforces via ParseInt with bit size 32 on faultCode), encoding the
fault and decoding the result yields no fault at all and a non-nil error,
not the non-nil fault with matching code the claim requires. -/
theorem C6_counterexample :
    (Marshal "" [.faultV ⟨2147483648, "x"⟩]).map (fun s => (tokenize s).map (fun ts =>
      ((Unmarshal ts).fault, (Unmarshal ts).err.isNone))) = .ok (.ok (none, false)) := rfl

/-- C6, amended: for every code representable as a 32-bit signed integer
and every message whose characters are in the XML character range (the Go
decoder rejects character data outside isInCharacterRange) and contain no
carriage return (the decoder rewrites CR and CRLF to LF), Marshal of the
fault followed by tokenizing and Unmarshal yields exactly the fault with
that code and message, an empty parameter list, no method name, and no
error. -/
theorem C6_fault_round_trip (code : Int) (msg : String)
    (h1 : -(2 ^ 31) ≤ code) (h2 : code < 2 ^ 31)
    (h3 : ∀ c ∈ msg.toList, c ≠ '\r' ∧ isInCharacterRange c.toNat = true) :
    (Marshal "" [.faultV ⟨code, msg⟩]).map (fun s => (tokenize s).map (fun ts =>
      ((Unmarshal ts).name, (Unmarshal ts).params, (Unmarshal ts).fault, (Unmarshal ts).err))) =
      .ok (.ok ("", [], some ⟨code, msg⟩, none)) := by
  have hmar : Marshal "" [.faultV ⟨code, msg⟩] =
      .ok ("<methodResponse>" ++ faultXML ⟨code, msg⟩ ++ "\n</methodResponse>") := by
    simp [Marshal, getFault]
  rw [hmar]
  simp only [Except.map]
  rw [tokenize_fault_response code msg h3]
  simp only [Except.map]
  rw [unmarshal_fault_tokens code msg h1 h2]

/-- Witness for C6 at the concrete fault code 7, message bad. -/
theorem C6_fault_round_trip_witness :
    (Marshal "" [.faultV ⟨7, "bad"⟩]).map (fun s => (tokenize s).map (fun ts =>
      ((Unmarshal ts).name, (Unmarshal ts).params, (Unmarshal ts).fault, (Unmarshal ts).err))) =
      .ok (.ok ("", [], some ⟨7, "bad"⟩, none)) :=
  C6_fault_round_trip 7 "bad" (by decide) (by decide) (by decide)

theorem mapLookup_mapInsert (l : List (String × ValueR)) (k1 k : String) (v : ValueR) :
    mapLookup (mapInsert l k1 v) k = if k = k1 then some v else mapLookup l k := by
  induction l with
  | nil =>
    simp only [mapInsert, mapLookup]
    by_cases h : k = k1
    · subst h
      simp [mapLookup]
    · rw [if_neg (fun hh => h hh.symm), if_neg h]
  | cons p rest ih =>
    rcases p with ⟨pk, pv⟩
    by_cases h1 : pk = k1
    · subst h1
      simp only [mapInsert, if_pos rfl]
      by_cases h : k = pk
      · subst h
        simp [mapLookup]
      · have h2 : ¬ pk = k := fun hh => h hh.symm
        simp only [mapLookup]
        rw [if_neg h2, if_neg h, if_neg h2]
    · simp only [mapInsert, if_neg h1]
      by_cases h2 : pk = k
      · subst h2
        simp [mapLookup, h1]
      · simp only [mapLookup, if_neg h2, ih]


theorem insertAll_lookup_aux (ms : List (String × List Tok × ValueR)) (k : String) :
    ∀ acc : List (String × ValueR),
      mapLookup (List.foldl (fun a m => mapInsert a m.1 m.2.2) acc ms) k =
        (match lastNamed k ms with
         | some v => some v
         | none => mapLookup acc k) := by
  induction ms with
  | nil => intro acc; simp [lastNamed]
  | cons m ms ih =>
    intro acc
    rw [List.foldl_cons, ih]
    simp only [lastNamed]
    cases hl : lastNamed k ms with
    | some v => simp
    | none =>
      simp only []
      rw [mapLookup_mapInsert]
      by_cases h : k = m.1
      · rw [if_pos h, if_pos h.symm]
      · rw [if_neg h, if_neg (fun hh => h hh.symm)]

theorem insertAllV_lookup (ms : List (String × List Tok × ValueR)) (k : String) :
    mapLookup (insertAllV ms) k = lastNamed k ms := by
  rw [insertAllV, insertAll_lookup_aux]
  cases lastNamed k ms <;> simp [mapLookup]

theorem lastNamed_perm (ms ms' : List (String × List Tok × ValueR))
    (hperm : ms.Perm ms') (hnd : (ms.map fun m => m.1).Nodup) (k : String) :
    lastNamed k ms = lastNamed k ms' := by
  induction hperm with
  | nil => rfl
  | cons x hp ih =>
    have hnd' := by
      simp only [List.map_cons, List.nodup_cons] at hnd
      exact hnd.2
    simp only [lastNamed, ih hnd']
  | swap x y l =>
    have hxy : ¬ y.1 = x.1 := by
      simp only [List.map_cons, List.nodup_cons, List.mem_cons] at hnd
      exact fun hh => hnd.1 (Or.inl hh)
    simp only [lastNamed]
    cases hl : lastNamed k l with
    | some v => simp
    | none =>
      simp only []
      by_cases hx : x.1 = k
      · have hy : ¬ y.1 = k := by
          rw [← hx]
          exact hxy
        simp [hx, hy]
      · by_cases hy : y.1 = k
        · simp [hx, hy]
        · simp [hx, hy]
  | trans h1 h2 ih1 ih2 =>
    have hnd2 := ((h1.map fun m => m.1).nodup_iff).mp hnd
    rw [ih1 hnd, ih2 hnd2]

theorem parseMembers_struct (ms : List (String × List Tok × ValueR)) :
    ∀ (acc : List (String × ValueR)) (rest : List Tok) (fuel : Nat),
      (∀ m ∈ ms, ParsesAs m.2.1 m.2.2) →
      ((ms.map fun m => memberToks m.1 m.2.1).flatten).length < fuel →
      parseMembers fuel acc
          ((ms.map fun m => memberToks m.1 m.2.1).flatten ++ (.stop "struct" :: rest)) =
        .ok (.strct (List.foldl (fun a m => mapInsert a m.1 m.2.2) acc ms), rest) := by
  induction ms with
  | nil =>
    intro acc rest fuel _ hfuel
    obtain ⟨f, rfl⟩ : ∃ f, fuel = f + 1 := ⟨fuel - 1, by omega⟩
    simp [parseMembers, getStart, nextStruct, checkLast]
  | cons m ms ih =>
    intro acc rest fuel hm hfuel
    obtain ⟨f, rfl⟩ : ∃ f, fuel = f + 1 := ⟨fuel - 1, by omega⟩
    have hflen : ((m :: ms).map fun x => memberToks x.1 x.2.1).flatten.length =
        m.2.1.length + 7 + ((ms.map fun x => memberToks x.1 x.2.1).flatten).length := by
      simp [memberToks]
      omega
    rw [hflen] at hfuel
    have harr : ((m :: ms).map fun x => memberToks x.1 x.2.1).flatten ++ (.stop "struct" :: rest) =
        .start "member" :: .start "name" :: .text m.1 :: .stop "name" :: .start "value" ::
          (m.2.1 ++ (.stop "value" :: .stop "member" ::
            ((ms.map fun x => memberToks x.1 x.2.1).flatten ++ (.stop "struct" :: rest)))) := by
      simp [memberToks, List.append_assoc]
    rw [harr]
    have hv := hm m (by simp) (.stop "value" :: .stop "member" ::
      ((ms.map fun x => memberToks x.1 x.2.1).flatten ++ (.stop "struct" :: rest))) f (by omega)
    have hrec := ih (mapInsert acc m.1 m.2.2) rest f (fun x hx => hm x (by simp [hx]))
      (by omega)
    simp [parseMembers, getStart, nextStruct, getText, decodeBody, decodeBodyAux,
      checkLast, string_empty_append, hv, hrec]

/-- C7: a well-formed struct document whose members (name, value document)
each parse as their value decodes to the map built by Go map assignment in
document order; lookups in that map are exactly the last member of each
name present (and nothing else); and for distinct member names the decoded
map content is invariant under any permutation of the members. -/
theorem C7_struct_decode (ms : List (String × List Tok × ValueR))
    (hm : ∀ m ∈ ms, ParsesAs m.2.1 m.2.2) :
    (∀ rest fuel, (structToks ms).length < fuel →
      parseValue fuel (structToks ms ++ rest) = .ok (.strct (insertAllV ms), rest)) ∧
    (∀ k, mapLookup (insertAllV ms) k = lastNamed k ms) ∧
    (∀ ms', ms.Perm ms' → ((ms.map fun m => m.1).Nodup) →
      ∀ k, mapLookup (insertAllV ms') k = mapLookup (insertAllV ms) k) := by
  refine ⟨?_, ?_, ?_⟩
  · intro rest fuel hfuel
    obtain ⟨f, rfl⟩ : ∃ f, fuel = f + 1 := ⟨fuel - 1, by omega⟩
    have hlen : (structToks ms).length =
        ((ms.map fun m => memberToks m.1 m.2.1).flatten).length + 2 := by
      simp [structToks]
    have harr : structToks ms ++ rest =
        .start "struct" ::
          ((ms.map fun m => memberToks m.1 m.2.1).flatten ++ (.stop "struct" :: rest)) := by
      simp [structToks, List.append_assoc]
    rw [harr]
    have hrec := parseMembers_struct ms [] rest f hm (by omega)
    simp [parseValue, getStart, nextStruct, simpleTags, hrec, insertAllV]
  · exact insertAllV_lookup ms
  · intro ms' hperm hnd k
    rw [insertAllV_lookup, insertAllV_lookup, lastNamed_perm ms ms' hperm hnd k]

/-- Witness for C7 at a one-member struct document holding int 1. -/
theorem C7_struct_decode_witness :
    parseValue 13 (structToks [("a", [.start "int", .text "1", .stop "int"], .int 1)] ++ []) =
      .ok (.strct [("a", .int 1)], []) := by
  have hm : ∀ m ∈ [(("a" : String), [Tok.start "int", Tok.text "1", Tok.stop "int"],
      ValueR.int 1)], ParsesAs m.2.1 m.2.2 := by
    intro m hmem
    simp at hmem
    subst hmem
    intro rest fuel hf
    obtain ⟨f, rfl⟩ : ∃ f, fuel = f + 1 := ⟨fuel - 1, by omega⟩
    have hconv : convertLeaf "int" "1" = .ok (.int 1) := rfl
    simp [parseValue, getStart, nextStruct, simpleTags, decodeBody, decodeBodyAux,
      string_empty_append, hconv]
  exact (C7_struct_decode _ hm).1 [] 13 (by decide)



theorem nextStruct_texts (ss : List String) (ts : List Tok) :
    nextStruct (ss.map Tok.text ++ ts) = nextStruct ts := by
  induction ss with
  | nil => rfl
  | cons s rest ih => simpa [nextStruct] using ih

theorem getStart_texts (name : String) (ss : List String) (ts : List Tok) :
    getStart name (ss.map Tok.text ++ ts) = getStart name ts := by
  rw [getStart, getStart, nextStruct_texts]

theorem getText_texts (ss : List String) (ts : List Tok) :
    getText (ss.map Tok.text ++ ts) = getText ts := by
  rw [getText, getText, nextStruct_texts]

theorem checkLast_texts (name : String) (ss : List String) (ts : List Tok) :
    checkLast name (ss.map Tok.text ++ ts) = checkLast name ts := by
  rw [checkLast, checkLast, nextStruct_texts]

/-- C10 counterexample: the claim quantifies over insertion between any two
structural elements; inserting character data between the start and end
tags of a string element — a simple-value element whose body is read by
DecodeElement, not by the skipping token fetch — changes the decoded
value. -/
theorem C10_counterexample :
    parseValueTop [.start "string", .stop "string"] = .ok (.str "", []) ∧
    parseValueTop [.start "string", .text "x", .stop "string"] = .ok (.str "x", []) ∧
    ValueR.str "" ≠ ValueR.str "x" := by
  refine ⟨rfl, rfl, by simp⟩

/-- C10, amended: the structural token fetch skips every token that is not
a start or end element, so character data standing immediately before any
structural fetch — the positions between elements that are not inside a
simple-value element body or a name/methodName text element — is invisible
to the whole decoder: the fetch, the value parser, the struct member loop,
the array item loop, and Unmarshal are all unchanged under prepended
character data at their entry. -/
theorem C10_chardata_skipped (ss : List String) (ts : List Tok) :
    nextStruct (ss.map Tok.text ++ ts) = nextStruct ts ∧
    (∀ f, parseValue (f + 1) (ss.map Tok.text ++ ts) = parseValue (f + 1) ts) ∧
    (∀ f acc, parseMembers (f + 1) acc (ss.map Tok.text ++ ts) = parseMembers (f + 1) acc ts) ∧
    (∀ f acc, parseItems (f + 1) acc (ss.map Tok.text ++ ts) = parseItems (f + 1) acc ts) ∧
    Unmarshal (ss.map Tok.text ++ ts) = Unmarshal ts := by
  refine ⟨nextStruct_texts ss ts, ?_, ?_, ?_, ?_⟩
  · intro f
    simp only [parseValue, getStart_texts]
  · intro f acc
    simp only [parseMembers, getStart_texts]
  · intro f acc
    simp only [parseItems, getStart_texts]
  · simp only [Unmarshal, getStart_texts]

end GoXmlRpc
